import Mathlib

/-!
Shallow embedding of the core of the datastore ndb client library
(event-loop futures and tasklets, the request auto-batcher, and the
batched memcache client), together with proofs about the embedded
operations.  Each definition is a direct translation of the Python
source it is named after; comments cite the source location.
-/

namespace NDBSpec

/-- Python values, as far as the embedded code inspects them: the
operations in scope distinguish None, booleans, ints and longs,
strings, tuples and lists, and treat everything else opaquely.
Sequences are encoded with first-order nil and cons cells wrapped by
the tuple and list constructors, so that equality stays derivable. -/
inductive Val : Type
  | none : Val
  | bool : Bool → Val
  | int : Int → Val
  | str : String → Val
  | nil : Val
  | cons : Val → Val → Val
  | tuple : Val → Val
  | list : Val → Val
  deriving DecidableEq, Repr

/-- Encodes a Lean list of values as a nil and cons sequence. -/
def vseq : List Val → Val
  | [] => Val.nil
  | x :: xs => Val.cons x (vseq xs)

/-- A Python tuple with the given items. -/
def vtuple (xs : List Val) : Val := Val.tuple (vseq xs)

/-- A Python list with the given items. -/
def vlist (xs : List Val) : Val := Val.list (vseq xs)

/-- Python exception objects, as far as the embedded code builds and
compares them.  The received payload of a TypeError keeps the value
that the format directive of the message would have shown. -/
inductive Err : Type
  | typeError (msg : String) (received : Val)
  | runtimeError (msg : String) (about : Val)
  | eofError (msg : String)
  | exn (tag : String) (payload : Val)
  deriving DecidableEq, Repr

/-- State of a Future cell: pending, or resolved with a result, or
failed with an exception and an optional traceback (tracebacks are
opaque tokens here).  Mirrors Future._done, _result, _exception and
_traceback in src/ndb/tasklets.py. -/
inductive FutState : Type
  | pending : FutState
  | success (v : Val) : FutState
  | failure (e : Err) (tb : Option Nat) : FutState
  deriving DecidableEq, Repr

/-- Final (non-pending) state of a Future. -/
inductive FutOutcome : Type
  | success (v : Val) : FutOutcome
  | failure (e : Err) (tb : Option Nat) : FutOutcome
  deriving DecidableEq, Repr

/-! ## Tasklet runtime (src/ndb/tasklets.py) -/

/-- Outcome of an awaited future or RPC, as observed by the callbacks
that resume a suspended tasklet (Future._on_future_completion reads
get_exception, get_traceback and get_result; Future._on_rpc_completion
catches the exception of rpc.get_result). -/
inductive Resolution : Type
  | value (v : Val) : Resolution
  | error (e : Err) (tb : Option Nat) : Resolution
  deriving DecidableEq, Repr

/-- Resolves each awaited future or RPC, identified by a number, to the
outcome the event loop eventually delivers for it. -/
def Oracle : Type := Nat → Resolution

/-- A generator object as driven by Future._help_tasklet_along: each
send or throw runs the body until it raises StopIteration with some
argument tuple, raises another exception (with the traceback that
sys.exc_info observes), or yields a Future or an RPC.  A yield comes
with the two continuations gen.send and gen.throw expose. -/
inductive Gen : Type
  | stop (args : List Val) : Gen
  | raise (e : Err) (tb : Option Nat) : Gen
  | yield_fut (fid : Nat) (k : Val → Gen) (kx : Err → Option Nat → Gen) : Gen
  | yield_rpc (rid : Nat) (k : Val → Gen) (kx : Err → Option Nat → Gen) : Gen

/-- Translation of get_return_value (src/ndb/tasklets.py lines 839 to
847): no argument gives None, one argument gives that argument, more
arguments give the args tuple. -/
def get_return_value (args : List Val) : Val :=
  match args with
  | [] => Val.none
  | [a] => a
  | _ => vtuple args

/-- Translation of Future._help_tasklet_along (src/ndb/tasklets.py
lines 287 to 349) together with the completion callbacks that feed it
(_on_rpc_completion, _on_future_completion): the final state of the
tasklet future, given that every yielded future or RPC resolves as the
oracle says.  StopIteration sets the result through get_return_value;
any other exception sets the exception with its traceback. -/
def help_tasklet_along (o : Oracle) : Gen → FutOutcome
  | Gen.stop args => FutOutcome.success (get_return_value args)
  | Gen.raise e tb => FutOutcome.failure e tb
  | Gen.yield_fut fid k kx =>
      match o fid with
      | Resolution.value v => help_tasklet_along o (k v)
      | Resolution.error e tb => help_tasklet_along o (kx e tb)
  | Gen.yield_rpc rid k kx =>
      match o rid with
      | Resolution.value v => help_tasklet_along o (k v)
      | Resolution.error e tb => help_tasklet_along o (kx e tb)

/-- Translation of Future.get_result via check_success (src/ndb/
tasklets.py lines 257 to 264) on a future that is already done:
re-raise the stored exception with the stored traceback, else return
the stored result. -/
def get_result (f : FutOutcome) : Except (Err × Option Nat) Val :=
  match f with
  | FutOutcome.success v => Except.ok v
  | FutOutcome.failure e tb => Except.error (e, tb)

/-- What the tasklet body itself does under a given oracle: it either
reaches a return statement (StopIteration or raise Return, carrying
the args) or raises an exception.  This is the specification-side
account of a run, independent of the future machinery. -/
inductive BodyEnd : Type
  | returned (args : List Val) : BodyEnd
  | raised (e : Err) (tb : Option Nat) : BodyEnd
  deriving DecidableEq, Repr

/-- Runs the body to its terminal event under the oracle. -/
def run_body (o : Oracle) : Gen → BodyEnd
  | Gen.stop args => BodyEnd.returned args
  | Gen.raise e tb => BodyEnd.raised e tb
  | Gen.yield_fut fid k kx =>
      match o fid with
      | Resolution.value v => run_body o (k v)
      | Resolution.error e tb => run_body o (kx e tb)
  | Gen.yield_rpc rid k kx =>
      match o rid with
      | Resolution.value v => run_body o (k v)
      | Resolution.error e tb => run_body o (kx e tb)

/-- What get_result should produce for a given terminal event of the
body, per the claim: re-raise the raised exception with its traceback,
else return the value extracted from the return arguments. -/
def body_end_result (be : BodyEnd) : Except (Err × Option Nat) Val :=
  match be with
  | BodyEnd.returned args => Except.ok (get_return_value args)
  | BodyEnd.raised e tb => Except.error (e, tb)

/-- The possible results of calling the function wrapped by the
tasklet decorator: it returns a generator, returns a plain value,
raises StopIteration (the raise Return idiom in a non-generator), or
raises some other exception. -/
inductive FuncResult : Type
  | gen (g : Gen) : FuncResult
  | sync_value (v : Val) : FuncResult
  | sync_stop (args : List Val) : FuncResult
  | sync_raise (e : Err) : FuncResult

/-- Translation of tasklet_wrapper inside the tasklet decorator
(src/ndb/tasklets.py lines 849 to 874).  Only StopIteration is caught
around the call of the wrapped function; any other synchronous
exception propagates out of the call, so no future is produced and the
result is an error.  A generator is scheduled with
_help_tasklet_along, whose eventual future state is taken under the
oracle; a plain value or an extracted return value resolves the future
at once. -/
def tasklet_wrapper (o : Oracle) : FuncResult → Except Err FutOutcome
  | FuncResult.gen g => Except.ok (help_tasklet_along o g)
  | FuncResult.sync_value v => Except.ok (FutOutcome.success v)
  | FuncResult.sync_stop args => Except.ok (FutOutcome.success (get_return_value args))
  | FuncResult.sync_raise e => Except.error e

/-- Helper: stepping a generator with _help_tasklet_along resolves the
tasklet future exactly as the terminal event of the body dictates. -/
theorem help_matches_run_body (o : Oracle) (g : Gen) :
    get_result (help_tasklet_along o g) = body_end_result (run_body o g) := by
  induction g with
  | stop args => rfl
  | raise e tb => rfl
  | yield_fut fid k kx ihk ihkx =>
      cases h : o fid with
      | value v => simp only [help_tasklet_along, run_body, h]; exact ihk v
      | error e tb => simp only [help_tasklet_along, run_body, h]; exact ihkx e tb
  | yield_rpc rid k kx ihk ihkx =>
      cases h : o rid with
      | value v => simp only [help_tasklet_along, run_body, h]; exact ihk v
      | error e tb => simp only [help_tasklet_along, run_body, h]; exact ihkx e tb

/-- C1 counterexample: the claim quantifies over every function wrapped
with the tasklet decorator, but a non-generator body that raises an
exception other than StopIteration makes the call itself raise: the
wrapper catches only StopIteration, so no Future is returned at all. -/
theorem tasklet_sync_raise_no_future_cex :
    tasklet_wrapper (fun _ => Resolution.value Val.none)
        (FuncResult.sync_raise (Err.exn "ValueError" Val.none))
      = Except.error (Err.exn "ValueError" Val.none)
    ∧ (tasklet_wrapper (fun _ => Resolution.value Val.none)
        (FuncResult.sync_raise (Err.exn "ValueError" Val.none))).isOk = false := by
  constructor
  · rfl
  · rfl

/-- C1 amended: whenever the call of a tasklet-wrapped function does
produce a Future (always for a generator body, and for a non-generator
body that returns or raises StopIteration), get_result on that Future
re-raises exactly the exception the body raised together with the
stored traceback, and otherwise returns the value passed through
StopIteration: None for no argument, the argument itself for one, the
args tuple for several.  A non-generator body raising any other
exception propagates it synchronously out of the call instead. -/
theorem tasklet_result_matches_body :
    (∀ (o : Oracle) (g : Gen),
        tasklet_wrapper o (FuncResult.gen g) = Except.ok (help_tasklet_along o g)
        ∧ get_result (help_tasklet_along o g) = body_end_result (run_body o g))
    ∧ (∀ (o : Oracle) (args : List Val),
        tasklet_wrapper o (FuncResult.sync_stop args)
          = Except.ok (FutOutcome.success (get_return_value args)))
    ∧ (∀ (o : Oracle) (v : Val),
        tasklet_wrapper o (FuncResult.sync_value v)
          = Except.ok (FutOutcome.success v))
    ∧ (∀ (o : Oracle) (e : Err),
        tasklet_wrapper o (FuncResult.sync_raise e) = Except.error e)
    ∧ get_return_value [] = Val.none
    ∧ (∀ v : Val, get_return_value [v] = v)
    ∧ (∀ (v w : Val) (vs : List Val),
        get_return_value (v :: w :: vs) = vtuple (v :: w :: vs)) := by
  refine ⟨fun o g => ⟨rfl, help_matches_run_body o g⟩, fun o args => rfl,
    fun o v => rfl, fun o e => rfl, rfl, fun v => rfl, fun v w vs => rfl⟩

/-! ## AutoBatcher (src/ndb/autobatcher.py) -/

/-- Lookup in a Python dict, modelled as an association list. -/
def dict_get {κ β : Type} [DecidableEq κ] (d : List (κ × β)) (k : κ) : Option β :=
  match d with
  | [] => Option.none
  | (k', v) :: rest => if k' = k then some v else dict_get rest k

/-- Assignment d[k] = v: replace the binding in place when the key is
present, append a new binding otherwise. -/
def dict_set {κ β : Type} [DecidableEq κ] (d : List (κ × β)) (k : κ) (v : β) :
    List (κ × β) :=
  match d with
  | [] => [(k, v)]
  | (k', v') :: rest => if k' = k then (k', v) :: rest else (k', v') :: dict_set rest k v

/-- Deletion del d[k]. -/
def dict_del {κ β : Type} [DecidableEq κ] (d : List (κ × β)) (k : κ) : List (κ × β) :=
  match d with
  | [] => []
  | (k', v') :: rest => if k' = k then rest else (k', v') :: dict_del rest k

/-- Translation of the flush test len(todo) >= self._limit under
Python 2 comparison rules: when the limit is None, any int compares
greater than None, so the test is always true; when the limit is an
int, it is the ordinary comparison. -/
def py_ge_limit (n : Nat) (limit : Option Int) : Bool :=
  match limit with
  | Option.none => true
  | some l => decide (l ≤ (n : Int))

/-- State of one AutoBatcher (src/ndb/autobatcher.py lines 51 to 66),
plus the bookkeeping the embedding needs: futures are numbered by a
fresh counter, and flush_log records each run_queue invocation, i.e.
each call of the todo-tasklet with its (future, arg) batch. -/
structure ABState : Type where
  limit : Option Int
  queues : List (Val × List (Nat × Val))
  running : List Nat
  idle_installed : Bool
  next_fut : Nat
  flush_log : List (Val × List (Nat × Val))
  deriving DecidableEq, Repr

/-- A batcher as freshly constructed: empty queues, nothing running. -/
def AB_init (limit : Option Int) : ABState :=
  { limit := limit, queues := [], running := [], idle_installed := false,
    next_fut := 0, flush_log := [] }

/-- Translation of AutoBatcher.run_queue (src/ndb/autobatcher.py lines
71 to 78): invoke the todo-tasklet on the batch (recorded in
flush_log), keep its batch future in running, and register
_finished_callback on it (modelled separately by finished_callback
below). -/
def AB_run_queue (s : ABState) (options : Val) (todo : List (Nat × Val)) : ABState :=
  { s with running := s.running ++ [s.next_fut],
           next_fut := s.next_fut + 1,
           flush_log := s.flush_log ++ [(options, todo)] }

/-- Translation of AutoBatcher.add (src/ndb/autobatcher.py lines 90 to
113): create a fresh pending future, install the idler when the queues
map was entirely empty and a new bucket is created, append the
(future, arg) pair to the bucket of the given options, and when the
bucket reaches the limit delete it from the queues map and run it
synchronously. -/
def AB_add (s : ABState) (arg : Val) (options : Val) : ABState × Nat :=
  let fut := s.next_fut
  let s1 : ABState := { s with next_fut := s.next_fut + 1 }
  let prev := dict_get s.queues options
  let s2 : ABState :=
    match prev with
    | some _ => s1
    | Option.none =>
        { s1 with idle_installed := (if s1.queues = [] then true else s1.idle_installed),
                  queues := dict_set s1.queues options [] }
  let todo := prev.getD [] ++ [(fut, arg)]
  if py_ge_limit todo.length s.limit then
    (AB_run_queue { s2 with queues := dict_del s2.queues options } options todo, fut)
  else
    ({ s2 with queues := dict_set s2.queues options todo }, fut)

/-- Successive calls of add with the same options value, in order. -/
def AB_add_seq (s : ABState) (options : Val) : List Val → ABState
  | [] => s
  | a :: as => AB_add_seq (AB_add s a options).1 options as

/-- The (future, arg) pairs that successive adds starting at fresh
future number n produce for the given args, in insertion order. -/
def enum_args (n : Nat) : List Val → List (Nat × Val)
  | [] => []
  | a :: as => (n, a) :: enum_args (n + 1) as

/-- The per-future effect of the failure branch of
AutoBatcher._finished_callback: fut.set_exception(err, tb) when the
future is not yet done, nothing otherwise. -/
def fail_pending (e : Err) (tb : Option Nat) (f : FutState) : FutState :=
  match f with
  | FutState.pending => FutState.failure e tb
  | other => other

/-- Translation of AutoBatcher._finished_callback (src/ndb/
autobatcher.py lines 132 to 149): remove the batch future from
running; when the batch future carries an exception, propagate that
exception and its traceback to every per-call future of the batch that
is still pending; a successful batch future leaves the batch alone. -/
def finished_callback (running : List Nat) (bid : Nat) (bout : FutOutcome)
    (todo : List (FutState × Val)) : List Nat × List (FutState × Val) :=
  (running.erase bid,
   match bout with
   | FutOutcome.success _ => todo
   | FutOutcome.failure e tb => todo.map (fun p => (fail_pending e tb p.1, p.2)))

/-- C2: when the batch future of a flushed AutoBatcher batch completes
with an exception, _finished_callback fails every per-call future of
the batch that is still pending with that same exception and
traceback, leaves no per-call future pending, and leaves per-call
futures that were already resolved unchanged. -/
theorem finished_callback_fans_out_failure (running : List Nat) (bid : Nat)
    (e : Err) (tb : Option Nat) (todo : List (FutState × Val)) :
    ((finished_callback running bid (FutOutcome.failure e tb) todo).2.length
      = todo.length)
    ∧ (∀ p ∈ (finished_callback running bid (FutOutcome.failure e tb) todo).2,
        p.1 ≠ FutState.pending)
    ∧ (∀ i : Fin todo.length,
        ((todo.get i).1 = FutState.pending →
          (finished_callback running bid (FutOutcome.failure e tb) todo).2.getD
              i.val (FutState.pending, Val.none)
            = (FutState.failure e tb, (todo.get i).2))
        ∧ ((todo.get i).1 ≠ FutState.pending →
          (finished_callback running bid (FutOutcome.failure e tb) todo).2.getD
              i.val (FutState.pending, Val.none)
            = todo.get i)) := by
  refine ⟨by simp [finished_callback], ?_, ?_⟩
  · intro p hp
    simp only [finished_callback, List.mem_map] at hp
    obtain ⟨q, hq, rfl⟩ := hp
    cases h : q.1 <;> simp [fail_pending, h]
  · intro i
    have hi : i.val <
        (todo.map (fun p => (fail_pending e tb p.1, p.2))).length := by
      simp
    have hget : (finished_callback running bid (FutOutcome.failure e tb) todo).2.getD
        i.val (FutState.pending, Val.none)
        = (fail_pending e tb (todo.get i).1, (todo.get i).2) := by
      simp [finished_callback, List.getD_eq_getElem?_getD,
        List.getElem?_eq_getElem hi, List.get_eq_getElem]
    constructor
    · intro hp
      rw [hget, hp]
      rfl
    · intro hp
      rw [hget]
      have hfp : fail_pending e tb (todo.get i).1 = (todo.get i).1 := by
        cases h : (todo.get i).1 with
        | pending => exact absurd h hp
        | success v => rfl
        | failure e' tb' => rfl
      rw [hfp]

/-- Witness for C2 at a concrete batch of one pending and one resolved
per-call future. -/
theorem finished_callback_fans_out_failure_witness :
    ((finished_callback [7] 7 (FutOutcome.failure (Err.exn "RPCError" Val.none) (some 3))
        [(FutState.pending, Val.int 1),
         (FutState.success (Val.int 2), Val.int 3)]).2.getD 0 (FutState.pending, Val.none)
      = (FutState.failure (Err.exn "RPCError" Val.none) (some 3), Val.int 1))
    ∧ ((finished_callback [7] 7 (FutOutcome.failure (Err.exn "RPCError" Val.none) (some 3))
        [(FutState.pending, Val.int 1),
         (FutState.success (Val.int 2), Val.int 3)]).2.getD 1 (FutState.pending, Val.none)
      = (FutState.success (Val.int 2), Val.int 3)) := by
  have h := finished_callback_fans_out_failure [7] 7 (Err.exn "RPCError" Val.none)
    (some 3) [(FutState.pending, Val.int 1), (FutState.success (Val.int 2), Val.int 3)]
  exact ⟨(h.2.2 ⟨0, by decide⟩).1 (by decide), (h.2.2 ⟨1, by decide⟩).2 (by decide)⟩

theorem dict_get_set_self {κ β : Type} [DecidableEq κ] (d : List (κ × β)) (k : κ)
    (v : β) : dict_get (dict_set d k v) k = some v := by
  induction d with
  | nil => simp [dict_set, dict_get]
  | cons p rest ih =>
      obtain ⟨k', v'⟩ := p
      by_cases h : k' = k <;> simp [dict_set, dict_get, h, ih]

theorem dict_set_set {κ β : Type} [DecidableEq κ] (d : List (κ × β)) (k : κ)
    (v w : β) : dict_set (dict_set d k v) k w = dict_set d k w := by
  induction d with
  | nil => simp [dict_set]
  | cons p rest ih =>
      obtain ⟨k', v'⟩ := p
      by_cases h : k' = k <;> simp [dict_set, h, ih]

theorem dict_del_set_absent {κ β : Type} [DecidableEq κ] (d : List (κ × β)) (k : κ)
    (v : β) (h : dict_get d k = Option.none) : dict_del (dict_set d k v) k = d := by
  induction d with
  | nil => simp [dict_set, dict_del]
  | cons p rest ih =>
      obtain ⟨k', v'⟩ := p
      by_cases hk : k' = k
      · rw [dict_get, if_pos hk] at h
        exact absurd h (by simp)
      · rw [dict_get, if_neg hk] at h
        simp [dict_set, dict_del, hk, ih h]

/-- An add on a bucket that already holds pairs, not yet reaching the
limit: the pair is appended to the bucket and nothing is flushed. -/
theorem AB_add_existing_noflush (s : ABState) (q : List (Val × List (Nat × Val)))
    (o a : Val) (pairs : List (Nat × Val))
    (hq : s.queues = dict_set q o pairs) (_habs : dict_get q o = Option.none)
    (hlim : py_ge_limit (pairs.length + 1) s.limit = false) :
    AB_add s a o =
      ({ s with
          queues := dict_set q o (pairs ++ [(s.next_fut, a)]),
          next_fut := s.next_fut + 1 },
        s.next_fut) := by
  simp [AB_add, hq, dict_get_set_self, hlim, dict_set_set]

/-- An add on a bucket that already holds pairs and thereby reaches
the limit: the bucket is deleted from the queues map and run_queue is
invoked synchronously on the full batch. -/
theorem AB_add_existing_flush (s : ABState) (q : List (Val × List (Nat × Val)))
    (o a : Val) (pairs : List (Nat × Val))
    (hq : s.queues = dict_set q o pairs) (habs : dict_get q o = Option.none)
    (hlim : py_ge_limit (pairs.length + 1) s.limit = true) :
    AB_add s a o =
      ({ s with
          queues := q,
          running := s.running ++ [s.next_fut + 1],
          next_fut := s.next_fut + 2,
          flush_log := s.flush_log ++ [(o, pairs ++ [(s.next_fut, a)])] },
        s.next_fut) := by
  simp [AB_add, hq, dict_get_set_self, hlim, dict_set_set, AB_run_queue,
    dict_del_set_absent q o _ habs]

/-- An add that creates a fresh bucket and does not reach the limit. -/
theorem AB_add_fresh_noflush (s : ABState) (o a : Val)
    (habs : dict_get s.queues o = Option.none)
    (hlim : py_ge_limit 1 s.limit = false) :
    AB_add s a o =
      ({ s with
          idle_installed := (if s.queues = [] then true else s.idle_installed),
          queues := dict_set s.queues o [(s.next_fut, a)],
          next_fut := s.next_fut + 1 },
        s.next_fut) := by
  simp [AB_add, habs, hlim, dict_set_set]

/-- An add that creates a fresh bucket and flushes it at once, the
case of a limit of one and the case of a limit of None. -/
theorem AB_add_fresh_flush (s : ABState) (o a : Val)
    (habs : dict_get s.queues o = Option.none)
    (hlim : py_ge_limit 1 s.limit = true) :
    AB_add s a o =
      ({ s with
          idle_installed := (if s.queues = [] then true else s.idle_installed),
          queues := s.queues,
          running := s.running ++ [s.next_fut + 1],
          next_fut := s.next_fut + 2,
          flush_log := s.flush_log ++ [(o, [(s.next_fut, a)])] },
        s.next_fut) := by
  simp [AB_add, habs, hlim, AB_run_queue, dict_set_set,
    dict_del_set_absent s.queues o _ habs]

/-- Filling one bucket to its limit: starting from a bucket that
already holds pairs, adding args whose count exactly completes the
limit flushes once, with the whole batch in insertion order, and
removes the bucket. -/
theorem AB_add_seq_grow : ∀ (args : List Val) (s : ABState)
    (q : List (Val × List (Nat × Val))) (o : Val) (pairs : List (Nat × Val)) (L : Int),
    s.queues = dict_set q o pairs → dict_get q o = Option.none →
    s.limit = some L → ((pairs.length : Int) + args.length = L) → args ≠ [] →
    (AB_add_seq s o args).flush_log
        = s.flush_log ++ [(o, pairs ++ enum_args s.next_fut args)]
    ∧ (AB_add_seq s o args).queues = q := by
  intro args
  induction args with
  | nil => intro s q o pairs L _ _ _ _ hne; exact absurd rfl hne
  | cons a as ih =>
      intro s q o pairs L hq habs hlim hcount _
      match as, hcount with
      | [], hcount =>
          have hflush : py_ge_limit (pairs.length + 1) s.limit = true := by
            rw [hlim]
            simp only [py_ge_limit, decide_eq_true_eq]
            simp at hcount
            omega
          have hstep := AB_add_existing_flush s q o a pairs hq habs hflush
          simp [AB_add_seq, hstep, enum_args]
      | b :: bs, hcount =>
          have hnoflush : py_ge_limit (pairs.length + 1) s.limit = false := by
            rw [hlim]
            simp only [py_ge_limit, decide_eq_false_iff_not]
            simp at hcount
            omega
          have hstep := AB_add_existing_noflush s q o a pairs hq habs hnoflush
          have ihr := ih ({ s with
              queues := dict_set q o (pairs ++ [(s.next_fut, a)]),
              next_fut := s.next_fut + 1 }) q o (pairs ++ [(s.next_fut, a)]) L
            rfl habs hlim (by simp at hcount ⊢; omega) (by simp)
          have henum : pairs ++ enum_args s.next_fut (a :: b :: bs)
              = (pairs ++ [(s.next_fut, a)]) ++ enum_args (s.next_fut + 1) (b :: bs) := by
            show pairs ++ ((s.next_fut, a) :: enum_args (s.next_fut + 1) (b :: bs)) = _
            exact List.append_cons pairs (s.next_fut, a) (enum_args (s.next_fut + 1) (b :: bs))
          simp only [AB_add_seq, hstep]
          rw [henum]
          exact ihr

/-- Adds that stay strictly below the limit never flush. -/
theorem AB_add_seq_no_flush : ∀ (args : List Val) (s : ABState)
    (q : List (Val × List (Nat × Val))) (o : Val) (pairs : List (Nat × Val)) (L : Int),
    s.queues = dict_set q o pairs → dict_get q o = Option.none →
    s.limit = some L → ((pairs.length : Int) + args.length < L) →
    (AB_add_seq s o args).flush_log = s.flush_log := by
  intro args
  induction args with
  | nil => intro s q o pairs L _ _ _ _; rfl
  | cons a as ih =>
      intro s q o pairs L hq habs hlim hcount
      have hnoflush : py_ge_limit (pairs.length + 1) s.limit = false := by
        rw [hlim]
        simp only [py_ge_limit, decide_eq_false_iff_not]
        simp at hcount
        omega
      have hstep := AB_add_existing_noflush s q o a pairs hq habs hnoflush
      have ihr := ih ({ s with
          queues := dict_set q o (pairs ++ [(s.next_fut, a)]),
          next_fut := s.next_fut + 1 }) q o (pairs ++ [(s.next_fut, a)]) L
        rfl habs hlim (by simp at hcount ⊢; omega)
      simp only [AB_add_seq, hstep]
      exact ihr

/-- C5: for an AutoBatcher with integer limit L of at least one, the
L-th call of add with a given options value flushes synchronously,
inside add: it removes the options bucket from the queues map and
invokes the todo-tasklet once with the full batch of L (future, arg)
pairs in insertion order, while any fewer than L calls invoke nothing
synchronously. -/
theorem autobatcher_add_flushes_at_limit (s : ABState) (o : Val) (args : List Val)
    (L : Nat) (hlim : s.limit = some (L : Int)) (hL : 1 ≤ L)
    (hlen : args.length = L) (habs : dict_get s.queues o = Option.none) :
    ((AB_add_seq s o args).flush_log
        = s.flush_log ++ [(o, enum_args s.next_fut args)])
    ∧ dict_get (AB_add_seq s o args).queues o = Option.none
    ∧ (∀ k : Nat, k < L → (AB_add_seq s o (args.take k)).flush_log = s.flush_log) := by
  match args, hlen with
  | [], hlen => simp at hlen; omega
  | a :: as, hlen =>
      rcases Nat.lt_or_ge 1 L with h2 | h1
      · -- limit at least two: the first add creates the bucket without flushing
        have hnoflush : py_ge_limit 1 s.limit = false := by
          rw [hlim]
          simp only [py_ge_limit, decide_eq_false_iff_not]
          omega
        have hstep := AB_add_fresh_noflush s o a habs hnoflush
        have hgrow := AB_add_seq_grow as ({ s with
            idle_installed := (if s.queues = [] then true else s.idle_installed),
            queues := dict_set s.queues o [(s.next_fut, a)],
            next_fut := s.next_fut + 1 }) s.queues o [(s.next_fut, a)] (L : Int)
          rfl habs hlim (by simp at hlen ⊢; omega)
          (by intro hnil; rw [hnil] at hlen; simp at hlen; omega)
        refine ⟨?_, ?_, ?_⟩
        · simp only [AB_add_seq, hstep]
          simp only [AB_add_seq, hstep] at hgrow
          rw [hgrow.1]
          simp [enum_args]
        · simp only [AB_add_seq, hstep]
          simp only [AB_add_seq, hstep] at hgrow
          rw [hgrow.2]
          exact habs
        · intro k hk
          match k with
          | 0 => rfl
          | Nat.succ k' =>
              simp only [List.take_succ_cons, AB_add_seq, hstep]
              exact AB_add_seq_no_flush (as.take k') _ s.queues o [(s.next_fut, a)]
                (L : Int) rfl habs hlim (by simp at hlen ⊢; omega)
      · -- limit exactly one: the very first add flushes
        have hL1 : L = 1 := by omega
        subst hL1
        have hone : as = [] := by simpa using hlen
        subst hone
        have hflush : py_ge_limit 1 s.limit = true := by
          rw [hlim]
          simp [py_ge_limit]
        have hstep := AB_add_fresh_flush s o a habs hflush
        refine ⟨?_, ?_, ?_⟩
        · simp [AB_add_seq, hstep, enum_args]
        · simp [AB_add_seq, hstep, habs]
        · intro k hk
          interval_cases k
          rfl

/-- Witness for C5: a batcher with limit two flushes exactly at the
second add, with both pairs in insertion order, and flushes nothing
after only one add. -/
theorem autobatcher_add_flushes_at_limit_witness :
    (AB_add_seq (AB_init (some 2)) Val.none [Val.int 1, Val.int 2]).flush_log
      = [(Val.none, [(0, Val.int 1), (1, Val.int 2)])]
    ∧ dict_get (AB_add_seq (AB_init (some 2)) Val.none
        [Val.int 1, Val.int 2]).queues Val.none = Option.none
    ∧ (AB_add_seq (AB_init (some 2)) Val.none
        ([Val.int 1, Val.int 2].take 1)).flush_log = [] := by
  have h := autobatcher_add_flushes_at_limit (AB_init (some 2)) Val.none
    [Val.int 1, Val.int 2] 2 rfl (by decide) rfl rfl
  exact ⟨h.1, h.2.1, h.2.2 1 (by decide)⟩

/-- Default of the max_memcache argument of MemcacheClient.__init__
(src/ndb/memcache_client.py line 26): None. -/
def mc_default_max_memcache : Option Int := Option.none

/-- The limits MemcacheClient.__init__ (src/ndb/memcache_client.py
lines 26 to 37) hands to the four auto-batchers it creates: each one
receives max_memcache unchanged. -/
def memcache_client_batcher_limits (mm : Option Int) : List (String × Option Int) :=
  [("memcache_get_batcher", mm), ("memcache_set_batcher", mm),
   ("memcache_del_batcher", mm), ("memcache_off_batcher", mm)]

/-- C9: with limit None, the default MemcacheClient configuration, the
Python 2 comparison len(todo) >= None holds for every length, so every
single add flushes synchronously with a one-element batch and removes
its bucket at once: no coalescing ever occurs. -/
theorem limit_none_every_add_flushes (s : ABState) (arg o : Val)
    (hlim : s.limit = Option.none) (habs : dict_get s.queues o = Option.none) :
    ((AB_add s arg o).1.flush_log = s.flush_log ++ [(o, [(s.next_fut, arg)])]
      ∧ dict_get (AB_add s arg o).1.queues o = Option.none)
    ∧ (∀ n : Nat, py_ge_limit n Option.none = true)
    ∧ (∀ p ∈ memcache_client_batcher_limits mc_default_max_memcache,
        p.2 = Option.none) := by
  refine ⟨?_, fun n => rfl, ?_⟩
  · have hflush : py_ge_limit 1 s.limit = true := by rw [hlim]; rfl
    have hstep := AB_add_fresh_flush s o arg habs hflush
    constructor
    · rw [hstep]
    · rw [hstep]
      exact habs
  · intro p hp
    fin_cases hp <;> rfl

/-- Witness for C9: the very first add on a fresh limit-None batcher
flushes a singleton batch. -/
theorem limit_none_every_add_flushes_witness :
    (AB_add (AB_init Option.none) (Val.str "k") Val.none).1.flush_log
      = [(Val.none, [(0, Val.str "k")])]
    ∧ dict_get (AB_add (AB_init Option.none) (Val.str "k") Val.none).1.queues
        Val.none = Option.none := by
  have h := limit_none_every_add_flushes (AB_init Option.none) (Val.str "k")
    Val.none rfl rfl
  exact ⟨h.1.1, h.1.2⟩

/-! ## Deadlock handling in Future.wait (src/ndb/tasklets.py lines 237
to 247) -/

/-- The process-wide pending set maintained by _State: futures are
added on creation and removed by set_result and set_exception, so the
set holds exactly the futures whose state is still pending.  The
runtime state is the store of all futures, keyed by number. -/
def all_pending (futs : List (Nat × FutState)) : List Nat :=
  (futs.filter (fun p => p.2 = FutState.pending)).map (fun p => p.1)

/-- The RuntimeError that Future.wait builds when run1 returns false:
the message names only the future being waited on. -/
def deadlock_error (selfId : Nat) : Err :=
  Err.runtimeError "Deadlock waiting for" (Val.int (selfId : Int))

/-- Translation of the deadlock branch of Future.wait (src/ndb/
tasklets.py lines 237 to 247): when run1 returns false while self is
still pending, the dump of all pending futures produced by
_State.dump_all_pending is written to the log (second component), and
self.set_exception is called with the deadlock RuntimeError, so only
the future being waited on changes state. -/
def wait_drained_step (selfId : Nat) (futs : List (Nat × FutState)) :
    List (Nat × FutState) × List Nat :=
  (futs.map (fun p =>
      if p.1 = selfId then (p.1, FutState.failure (deadlock_error selfId) Option.none)
      else p),
   all_pending futs)

/-- C3 counterexample: with futures 0 and 1 both pending and the loop
drained during a wait on future 0, future 1 is still pending
afterwards, though the claim requires every pending future to be
failed with the DEADLOCK error. -/
theorem deadlock_fails_only_waited_future_cex :
    (wait_drained_step 0 [(0, FutState.pending), (1, FutState.pending)]).1
      = [(0, FutState.failure (deadlock_error 0) Option.none), (1, FutState.pending)]
    ∧ all_pending (wait_drained_step 0 [(0, FutState.pending), (1, FutState.pending)]).1
      = [1] := by
  exact ⟨rfl, rfl⟩

/-- C3 amended: when the event loop drains while futures are pending,
only the single future whose wait is spinning the loop is failed, with
a RuntimeError deadlock message naming that future; every other
pending future is left untouched, and the dump of the whole pending
set goes to the log only. -/
theorem wait_deadlock_fails_waited_future (selfId : Nat)
    (futs : List (Nat × FutState))
    (h : List.lookup selfId futs = some FutState.pending) :
    List.lookup selfId (wait_drained_step selfId futs).1
        = some (FutState.failure (deadlock_error selfId) Option.none)
    ∧ (∀ p ∈ futs, p.1 ≠ selfId → p ∈ (wait_drained_step selfId futs).1)
    ∧ (wait_drained_step selfId futs).2 = all_pending futs := by
  refine ⟨?_, ?_, rfl⟩
  · induction futs with
    | nil => simp [List.lookup] at h
    | cons p rest ih =>
        obtain ⟨k, v⟩ := p
        by_cases hk : k = selfId
        · subst hk
          simp only [wait_drained_step, List.map_cons, if_pos rfl]
          simp [List.lookup]
        · have hbeq : (selfId == k) = false := by
            simp
            exact fun he => hk he.symm
          simp only [List.lookup, hbeq] at h
          have ihr := ih h
          simp only [wait_drained_step, List.map_cons, if_neg hk] at ihr ⊢
          simp only [List.lookup, hbeq]
          exact ihr
  · intro p hp hne
    refine List.mem_map.mpr ⟨p, hp, ?_⟩
    simp [hne]

/-- Witness for C3 amended at the two-future state. -/
theorem wait_deadlock_fails_waited_future_witness :
    List.lookup 0 (wait_drained_step 0 [(0, FutState.pending), (1, FutState.pending)]).1
        = some (FutState.failure (deadlock_error 0) Option.none)
    ∧ (1, FutState.pending)
        ∈ (wait_drained_step 0 [(0, FutState.pending), (1, FutState.pending)]).1 := by
  have h := wait_deadlock_fails_waited_future 0
    [(0, FutState.pending), (1, FutState.pending)] rfl
  exact ⟨h.1, h.2.1 (1, FutState.pending) (by simp) (by decide)⟩

/-! ## MultiFuture (src/ndb/tasklets.py lines 383 to 480) -/

/-- State of a MultiFuture: the _full flag, the set of dependents that
have not signalled completion yet, the _results list of dependents in
addition order (duplicates kept), and the future's own resolution. -/
structure MFState : Type where
  full : Bool
  dependents : List Nat
  results : List Nat
  outcome : Option FutOutcome
  deriving DecidableEq, Repr

/-- A MultiFuture as constructed by MultiFuture.__init__. -/
def MF_init : MFState :=
  { full := false, dependents := [], results := [], outcome := Option.none }

/-- Final outcome of each dependent future, by number. -/
def DepEnv : Type := Nat → FutOutcome

/-- The list comprehension of MultiFuture._finish, r.get_result() for
r in self._results, evaluated left to right: the first dependent in
addition order whose get_result raises determines the exception. -/
def mf_collect (env : DepEnv) : List Nat → Except (Err × Option Nat) (List Val)
  | [] => Except.ok []
  | fid :: rest =>
      match env fid with
      | FutOutcome.failure e tb => Except.error (e, tb)
      | FutOutcome.success v =>
          match mf_collect env rest with
          | Except.ok vs => Except.ok (v :: vs)
          | Except.error p => Except.error p

/-- Translation of MultiFuture._finish (src/ndb/tasklets.py lines 449
to 459) on the results list: set_result with the list of dependent
results, or set_exception with the first failure encountered. -/
def mf_result (env : DepEnv) (results : List Nat) : FutOutcome :=
  match mf_collect env results with
  | Except.ok vs => FutOutcome.success (vlist vs)
  | Except.error (e, tb) => FutOutcome.failure e tb

/-- MultiFuture._finish as a state transition. -/
def MF_finish (env : DepEnv) (s : MFState) : MFState :=
  { s with outcome := some (mf_result env s.results) }

/-- Translation of MultiFuture.add_dependent (src/ndb/tasklets.py
lines 469 to 475): always append to _results; add to _dependents and
register the completion callback only when not already present. -/
def MF_add_dependent (s : MFState) (fid : Nat) : MFState :=
  { s with results := s.results ++ [fid],
           dependents := if fid ∈ s.dependents then s.dependents
                         else s.dependents ++ [fid] }

/-- Translation of MultiFuture.complete (src/ndb/tasklets.py lines 438
to 442): seal the set and finish at once when no dependent is
outstanding. -/
def MF_complete (env : DepEnv) (s : MFState) : MFState :=
  let s1 : MFState := { s with full := true }
  if s1.dependents = [] then MF_finish env s1 else s1

/-- Translation of MultiFuture._signal_dependent_done (src/ndb/
tasklets.py lines 477 to 480): drop the dependent and finish when the
future is sealed, no dependent is outstanding, and it is not yet
done. -/
def MF_signal (env : DepEnv) (s : MFState) (fid : Nat) : MFState :=
  let s1 : MFState := { s with dependents := s.dependents.erase fid }
  if s1.full = true ∧ s1.dependents = [] ∧ s1.outcome = Option.none then
    MF_finish env s1
  else s1

/-- All add_dependent calls, in addition order. -/
def MF_add_all (s : MFState) (ds : List Nat) : MFState :=
  ds.foldl MF_add_dependent s

/-- Dependent completion signals, in completion order. -/
def MF_run_signals (env : DepEnv) (s : MFState) (sig : List Nat) : MFState :=
  sig.foldl (MF_signal env) s

theorem MF_add_all_fields : ∀ (ds : List Nat) (s : MFState),
    (MF_add_all s ds).results = s.results ++ ds
    ∧ (MF_add_all s ds).full = s.full
    ∧ (MF_add_all s ds).outcome = s.outcome
    ∧ (s.dependents.Nodup → (MF_add_all s ds).dependents.Nodup) := by
  intro ds
  induction ds with
  | nil => intro s; exact ⟨by simp [MF_add_all], rfl, rfl, fun h => h⟩
  | cons d rest ih =>
      intro s
      have ihr := ih (MF_add_dependent s d)
      refine ⟨?_, ?_, ?_, ?_⟩
      · rw [show MF_add_all s (d :: rest) = MF_add_all (MF_add_dependent s d) rest from rfl,
          ihr.1]
        simp [MF_add_dependent]
      · exact ihr.2.1
      · exact ihr.2.2.1
      · intro hnd
        refine ihr.2.2.2 ?_
        by_cases hmem : d ∈ s.dependents
        · simpa [MF_add_dependent, hmem] using hnd
        · simp [MF_add_dependent, hmem, List.nodup_append, hnd]

/-- Drain lemma: once the MultiFuture is sealed and still undone,
processing the outstanding dependents in any completion order finishes
it with the result computed from the addition-order results list. -/
theorem MF_drain : ∀ (sig : List Nat) (env : DepEnv) (s : MFState),
    s.full = true → s.outcome = Option.none → s.dependents.Nodup →
    sig.Perm s.dependents → sig ≠ [] →
    (MF_run_signals env s sig).outcome = some (mf_result env s.results) := by
  intro sig
  induction sig with
  | nil => intro env s _ _ _ _ hne; exact absurd rfl hne
  | cons a rest ih =>
      intro env s hfull hout hnd hperm _
      have hmem : a ∈ s.dependents := hperm.mem_iff.mp (by simp)
      have hrest : rest.Perm (s.dependents.erase a) :=
        (List.cons_perm_iff_perm_erase.mp hperm).2
      match rest, hrest with
      | [], hrest =>
          have hder : s.dependents.erase a = [] := by
            exact List.perm_nil.mp hrest.symm
          have hsig : MF_signal env s a = MF_finish env
              { s with dependents := s.dependents.erase a } := by
            simp [MF_signal, hder, hfull, hout]
          simp [MF_run_signals, hsig, MF_finish]
      | b :: bs, hrest =>
          have hder : s.dependents.erase a ≠ [] := by
            intro hnil
            rw [hnil] at hrest
            exact absurd (List.perm_nil.mp hrest) (by simp)
          have hsig : MF_signal env s a =
              { s with dependents := s.dependents.erase a } := by
            simp [MF_signal, hder]
          have ihr := ih env { s with dependents := s.dependents.erase a }
            hfull hout (hnd.erase a) hrest (by simp)
          rw [show MF_run_signals env s (a :: b :: bs)
              = MF_run_signals env (MF_signal env s a) (b :: bs) from rfl, hsig]
          exact ihr

/-- Seal-and-drain: some dependents may complete before complete() is
called and the rest after; in every such interleaving the outcome is
determined by the addition-order results list. -/
theorem MF_seal_drain : ∀ (sig1 sig2 : List Nat) (env : DepEnv) (s : MFState),
    s.full = false → s.outcome = Option.none → s.dependents.Nodup →
    (sig1 ++ sig2).Perm s.dependents →
    (MF_run_signals env (MF_complete env (MF_run_signals env s sig1)) sig2).outcome
      = some (mf_result env s.results) := by
  intro sig1
  induction sig1 with
  | nil =>
      intro sig2 env s hfull hout hnd hperm
      simp only [List.nil_append] at hperm
      rw [show MF_run_signals env s [] = s from rfl]
      by_cases hdeps : s.dependents = []
      · have hsig2 : sig2 = [] := by
          rw [hdeps] at hperm
          exact List.perm_nil.mp hperm
        subst hsig2
        have hc : MF_complete env s = MF_finish env { s with full := true } := by
          simp [MF_complete, hdeps]
        simp [MF_run_signals, hc, MF_finish]
      · have hc : MF_complete env s = { s with full := true } := by
          simp [MF_complete, hdeps]
        rw [hc]
        have hne : sig2 ≠ [] := by
          intro hnil
          rw [hnil] at hperm
          exact hdeps (List.perm_nil.mp hperm.symm)
        exact MF_drain sig2 env { s with full := true } rfl hout hnd hperm hne
  | cons a rest ih =>
      intro sig2 env s hfull hout hnd hperm
      have hmem : a ∈ s.dependents := hperm.mem_iff.mp (by simp)
      have hrest : (rest ++ sig2).Perm (s.dependents.erase a) :=
        (List.cons_perm_iff_perm_erase.mp (by simpa using hperm)).2
      have hsig : MF_signal env s a =
          { s with dependents := s.dependents.erase a } := by
        simp [MF_signal, hfull]
      rw [show MF_run_signals env s (a :: rest)
          = MF_run_signals env (MF_signal env s a) rest from rfl, hsig]
      exact ih sig2 env { s with dependents := s.dependents.erase a }
        hfull hout (hnd.erase a) hrest

/-- True when a dependent resolved successfully. -/
def is_success (f : FutOutcome) : Bool :=
  match f with
  | FutOutcome.success _ => true
  | FutOutcome.failure _ _ => false

/-- The stored result of a successfully resolved dependent. -/
def success_val (f : FutOutcome) : Val :=
  match f with
  | FutOutcome.success v => v
  | FutOutcome.failure _ _ => Val.none

theorem mf_collect_all_ok (env : DepEnv) : ∀ (l : List Nat),
    (∀ fid ∈ l, is_success (env fid) = true) →
    mf_collect env l = Except.ok (l.map (fun fid => success_val (env fid))) := by
  intro l
  induction l with
  | nil => intro _; rfl
  | cons x rest ih =>
      intro hall
      have hx := hall x (by simp)
      cases henv : env x with
      | success v =>
          have ihr := ih (fun fid hf => hall fid (by simp [hf]))
          simp [mf_collect, henv, ihr, success_val]
      | failure e tb => rw [henv] at hx; exact absurd hx (by simp [is_success])

theorem mf_collect_first_fail (env : DepEnv) : ∀ (l : List Nat) (f0 : Nat)
    (e : Err) (tb : Option Nat),
    l.find? (fun fid => !(is_success (env fid))) = some f0 →
    env f0 = FutOutcome.failure e tb →
    mf_collect env l = Except.error (e, tb) := by
  intro l
  induction l with
  | nil => intro f0 e tb hfind _; simp at hfind
  | cons x rest ih =>
      intro f0 e tb hfind henv
      by_cases hx : is_success (env x) = true
      · rw [List.find?_cons_of_neg _ (by simp [hx])] at hfind
        have ihr := ih f0 e tb hfind henv
        cases hev : env x with
        | success v => simp [mf_collect, hev, ihr]
        | failure e' tb' =>
            rw [hev] at hx
            simp [is_success] at hx
      · rw [List.find?_cons_of_pos _ (by simpa using hx)] at hfind
        have hx0 : x = f0 := by simpa using hfind
        subst hx0
        simp [mf_collect, henv]

/-- C4: a MultiFuture sealed with complete() resolves, after all
dependents have completed in any interleaving order, to the outcome
determined by the addition-order results list: the list of dependent
results in addition order (a duplicate dependent contributes at both
positions) when every dependent succeeds, else the failure of the
first failed dependent in addition order, the results of the remaining
completed dependents being dropped. -/
theorem multifuture_outcome (env : DepEnv) (ds sig1 sig2 : List Nat)
    (hperm : (sig1 ++ sig2).Perm (MF_add_all MF_init ds).dependents) :
    ((MF_run_signals env
        (MF_complete env (MF_run_signals env (MF_add_all MF_init ds) sig1))
        sig2).outcome
      = some (mf_result env ds))
    ∧ ((∀ fid ∈ ds, is_success (env fid) = true) →
        mf_result env ds
          = FutOutcome.success (vlist (ds.map (fun fid => success_val (env fid)))))
    ∧ (∀ (f0 : Nat) (e : Err) (tb : Option Nat),
        ds.find? (fun fid => !(is_success (env fid))) = some f0 →
        env f0 = FutOutcome.failure e tb →
        mf_result env ds = FutOutcome.failure e tb) := by
  have hf := MF_add_all_fields ds MF_init
  refine ⟨?_, ?_, ?_⟩
  · have h := MF_seal_drain sig1 sig2 env (MF_add_all MF_init ds)
      (by rw [hf.2.1]; rfl) (by rw [hf.2.2.1]; rfl) (hf.2.2.2 (by simp [MF_init]))
      hperm
    rw [h, hf.1]
    simp [MF_init]
  · intro hall
    rw [mf_result, mf_collect_all_ok env ds hall]
  · intro f0 e tb hfind henv
    rw [mf_result, mf_collect_first_fail env ds f0 e tb hfind henv]

/-- Witness for C4: dependent 0 added twice around dependent 1, with
completion signals arriving in the opposite order; and a failing
dependent determining the aggregate failure. -/
theorem multifuture_outcome_witness :
    ((MF_run_signals (fun fid => if fid = 0 then FutOutcome.success (Val.int 5)
          else FutOutcome.success (Val.int 7))
        (MF_complete (fun fid => if fid = 0 then FutOutcome.success (Val.int 5)
            else FutOutcome.success (Val.int 7))
          (MF_run_signals (fun fid => if fid = 0 then FutOutcome.success (Val.int 5)
              else FutOutcome.success (Val.int 7))
            (MF_add_all MF_init [0, 1, 0]) []))
        [1, 0]).outcome
      = some (FutOutcome.success (vlist [Val.int 5, Val.int 7, Val.int 5])))
    ∧ mf_result (fun fid => if fid = 0 then FutOutcome.success (Val.int 5)
          else FutOutcome.failure (Err.exn "Boom" Val.none) (some 9)) [0, 1]
        = FutOutcome.failure (Err.exn "Boom" Val.none) (some 9) := by
  have h1 := multifuture_outcome
    (fun fid => if fid = 0 then FutOutcome.success (Val.int 5)
      else FutOutcome.success (Val.int 7)) [0, 1, 0] [] [1, 0] (by decide)
  have h2 := multifuture_outcome
    (fun fid => if fid = 0 then FutOutcome.success (Val.int 5)
      else FutOutcome.failure (Err.exn "Boom" Val.none) (some 9)) [0, 1] [] [0, 1]
    (by decide)
  exact ⟨h1.1.trans (by decide),
    h2.2.2 1 (Err.exn "Boom" Val.none) (some 9) (by decide) (by decide)⟩

/-! ## QueueFuture (src/ndb/tasklets.py lines 483 to 591) -/

/-- A buffered item of a QueueFuture: the (exc and traceback, value)
pair that _signal_dependent_done buffers in _completed; the exception
part is None for a successful dependent, and the value is None for a
failed one. -/
abbrev QItem : Type := Option (Err × Option Nat) × Val

/-- State of a QueueFuture: the _full flag, outstanding dependents,
the _completed buffer, the _waiting getq futures, the queue's own
resolution, plus embedding bookkeeping: a log of how produced getq
futures were resolved, and a fresh counter for them. -/
structure QFState : Type where
  full : Bool
  dependents : List Nat
  completed : List QItem
  waiting : List Nat
  outcome : Option FutOutcome
  resolved : List (Nat × FutOutcome)
  next_fut : Nat
  deriving DecidableEq, Repr

/-- A QueueFuture as constructed by QueueFuture.__init__. -/
def QF_init : QFState :=
  { full := false, dependents := [], completed := [], waiting := [],
    outcome := Option.none, resolved := [], next_fut := 0 }

/-- Resolution of a getq future, recording what _pass_result does
(src/ndb/tasklets.py lines 587 to 591): set_exception when an
exception is present, set_result otherwise. -/
def QF_resolve (s : QFState) (fid : Nat) (out : FutOutcome) : QFState :=
  { s with resolved := s.resolved ++ [(fid, out)] }

/-- The outcome _pass_result delivers for a buffered item. -/
def item_out (it : QItem) : FutOutcome :=
  match it.1 with
  | some (e, tb) => FutOutcome.failure e tb
  | Option.none => FutOutcome.success it.2

/-- What _pass_eof delivers given the queue's own resolution: the
stored exception when set_exception was used, else EOFError. -/
def eof_out (out : FutOutcome) : FutOutcome :=
  match out with
  | FutOutcome.failure e tb => FutOutcome.failure e tb
  | FutOutcome.success _ =>
      FutOutcome.failure (Err.eofError "Queue is empty") Option.none

/-- Translation of QueueFuture._pass_eof (src/ndb/tasklets.py lines
577 to 585).  The code asserts that the queue is done, so the branch
for a still-pending queue is unreachable; it is mapped to the EOFError
the code would build from a missing exception. -/
def QF_pass_eof (s : QFState) (fid : Nat) : QFState :=
  match s.outcome with
  | some out => QF_resolve s fid (eof_out out)
  | Option.none =>
      QF_resolve s fid (FutOutcome.failure (Err.eofError "Queue is empty") Option.none)

/-- Translation of QueueFuture._mark_finished (src/ndb/tasklets.py
lines 560 to 564): pop every waiting getq future and pass it EOF. -/
def QF_mark_finished (s : QFState) : QFState :=
  s.waiting.foldl QF_pass_eof { s with waiting := [] }

/-- Translation of QueueFuture.getq (src/ndb/tasklets.py lines 566 to
575): create a future; serve it the oldest buffered item if any; else
pass EOF when the queue is sealed with no outstanding dependent; else
park it in _waiting. -/
def QF_getq (s : QFState) : QFState × Nat :=
  let fid := s.next_fut
  let s1 : QFState := { s with next_fut := s.next_fut + 1 }
  match s1.completed with
  | it :: rest => (QF_resolve { s1 with completed := rest } fid (item_out it), fid)
  | [] =>
      if s1.full = true ∧ s1.dependents = [] then (QF_pass_eof s1 fid, fid)
      else ({ s1 with waiting := s1.waiting ++ [fid] }, fid)

/-- Translation of QueueFuture._signal_dependent_done (src/ndb/
tasklets.py lines 543 to 558): drop the dependent; hand its outcome to
the oldest waiting getq future, or buffer it; and when the queue is
sealed, no dependent is outstanding and the queue is not yet done,
set_result(None) and mark finished. -/
def QF_signal (s : QFState) (dep : Nat) (dout : FutOutcome) : QFState :=
  let s1 : QFState := { s with dependents := s.dependents.erase dep }
  let it : QItem :=
    match dout with
    | FutOutcome.failure e tb => (some (e, tb), Val.none)
    | FutOutcome.success v => (Option.none, v)
  let s2 : QFState :=
    match s1.waiting with
    | w :: ws => QF_resolve { s1 with waiting := ws } w (item_out it)
    | [] => { s1 with completed := s1.completed ++ [it] }
  if s2.full = true ∧ s2.dependents = [] ∧ s2.outcome = Option.none then
    QF_mark_finished { s2 with outcome := some (FutOutcome.success Val.none) }
  else s2

/-- Translation of QueueFuture.complete (src/ndb/tasklets.py lines 515
to 520). -/
def QF_complete (s : QFState) : QFState :=
  let s1 : QFState := { s with full := true }
  if s1.dependents = [] then
    QF_mark_finished { s1 with outcome := some (FutOutcome.success Val.none) }
  else s1

/-- Translation of QueueFuture.set_exception (src/ndb/tasklets.py
lines 522 to 526). -/
def QF_set_exception (s : QFState) (e : Err) (tb : Option Nat) : QFState :=
  let s1 : QFState :=
    { s with
        full := true,
        outcome := some (FutOutcome.failure e tb) }
  if s1.dependents = [] then QF_mark_finished s1 else s1

/-- Translation of QueueFuture.add_dependent (src/ndb/tasklets.py
lines 536 to 541). -/
def QF_add_dependent (s : QFState) (fid : Nat) : QFState :=
  { s with dependents := if fid ∈ s.dependents then s.dependents
                         else s.dependents ++ [fid] }

theorem QF_pass_eof_outcome (s : QFState) (fid : Nat) :
    (QF_pass_eof s fid).outcome = s.outcome := by
  cases h : s.outcome <;> simp [QF_pass_eof, h, QF_resolve]

theorem QF_foldl_pass_eof_outcome : ∀ (l : List Nat) (t : QFState),
    (l.foldl QF_pass_eof t).outcome = t.outcome := by
  intro l
  induction l with
  | nil => intro t; rfl
  | cons w ws ih => intro t; rw [List.foldl_cons, ih, QF_pass_eof_outcome]

theorem QF_mark_finished_outcome (s : QFState) :
    (QF_mark_finished s).outcome = s.outcome := by
  rw [QF_mark_finished, QF_foldl_pass_eof_outcome]

/-- C7: a QueueFuture that has been sealed by complete() or
set_exception() and whose buffered results have all been withdrawn
serves every further getq() call a future failed with the explicitly
set exception, or with EOFError when the queue finished normally, and
the queue stays in that state for all subsequent getq() calls; a
buffered failing dependent delivers its exception exactly on the one
getq() future that withdraws it, leaving the rest of the queue intact;
and a failing dependent is delivered to at most the one waiting getq()
future and never becomes the resolution of the queue itself, so it
does not terminate the queue for later getq() calls. -/
theorem queuefuture_eof_and_item_failure (s : QFState) :
    (∀ out : FutOutcome, s.full = true → s.dependents = [] → s.completed = [] →
      s.outcome = some out →
      (QF_getq s).1.resolved = s.resolved ++ [(s.next_fut, eof_out out)]
      ∧ (QF_getq s).1.completed = []
      ∧ (QF_getq s).1.full = s.full
      ∧ (QF_getq s).1.dependents = s.dependents
      ∧ (QF_getq s).1.outcome = s.outcome)
    ∧ (∀ (it : QItem) (rest : List QItem), s.completed = it :: rest →
        (QF_getq s).1.resolved = s.resolved ++ [(s.next_fut, item_out it)]
        ∧ (QF_getq s).1.completed = rest
        ∧ (QF_getq s).1.outcome = s.outcome
        ∧ (QF_getq s).1.full = s.full
        ∧ (QF_getq s).1.dependents = s.dependents
        ∧ (QF_getq s).1.waiting = s.waiting)
    ∧ (∀ (dep : Nat) (e : Err) (tb : Option Nat),
        ((QF_signal s dep (FutOutcome.failure e tb)).outcome = s.outcome
          ∨ (QF_signal s dep (FutOutcome.failure e tb)).outcome
              = some (FutOutcome.success Val.none))
        ∧ (s.waiting = [] → ¬(s.full = true ∧ s.dependents.erase dep = [] ∧
              s.outcome = Option.none) →
            (QF_signal s dep (FutOutcome.failure e tb)).completed
              = s.completed ++ [(some (e, tb), Val.none)]
            ∧ (QF_signal s dep (FutOutcome.failure e tb)).resolved = s.resolved)
        ∧ (∀ (w : Nat) (ws : List Nat), s.waiting = w :: ws →
            ¬(s.full = true ∧ s.dependents.erase dep = [] ∧
              s.outcome = Option.none) →
            (QF_signal s dep (FutOutcome.failure e tb)).resolved
              = s.resolved ++ [(w, FutOutcome.failure e tb)]
            ∧ (QF_signal s dep (FutOutcome.failure e tb)).waiting = ws)) := by
  refine ⟨?_, ?_, ?_⟩
  · intro out hfull hdeps hcomp hout
    simp [QF_getq, hcomp, hfull, hdeps, QF_pass_eof, hout, QF_resolve]
  · intro it rest hcomp
    simp [QF_getq, hcomp, QF_resolve]
  · intro dep e tb
    refine ⟨?_, ?_, ?_⟩
    · cases hw : s.waiting with
      | nil =>
          by_cases hfin : s.full = true ∧ s.dependents.erase dep = []
              ∧ s.outcome = Option.none
          · right
            simp only [QF_signal, hw]
            rw [if_pos hfin, QF_mark_finished_outcome]
          · left
            simp only [QF_signal, hw]
            rw [if_neg hfin]
      | cons w ws =>
          by_cases hfin : s.full = true ∧ s.dependents.erase dep = []
              ∧ s.outcome = Option.none
          · right
            simp only [QF_signal, hw, QF_resolve]
            rw [if_pos hfin, QF_mark_finished_outcome]
          · left
            simp only [QF_signal, hw, QF_resolve]
            rw [if_neg hfin]
    · intro hw hn
      simp only [QF_signal, hw]
      rw [if_neg hn]
      exact ⟨rfl, rfl⟩
    · intro w ws hw hn
      simp only [QF_signal, hw, QF_resolve]
      rw [if_neg hn]
      exact ⟨rfl, rfl⟩

/-- Witness for C7: one dependent that fails, queue completed; the
first getq withdraws the failure, the next getq gets EOFError; and on
a queue with a second outstanding dependent, a failing dependent is
merely buffered. -/
theorem queuefuture_eof_and_item_failure_witness :
    (QF_getq (QF_signal (QF_complete (QF_add_dependent QF_init 0)) 0
        (FutOutcome.failure (Err.exn "Boom" Val.none) (some 2)))).1.resolved
      = [(0, FutOutcome.failure (Err.exn "Boom" Val.none) (some 2))]
    ∧ (QF_getq (QF_getq (QF_signal (QF_complete (QF_add_dependent QF_init 0)) 0
        (FutOutcome.failure (Err.exn "Boom" Val.none) (some 2)))).1).1.resolved
      = [(0, FutOutcome.failure (Err.exn "Boom" Val.none) (some 2)),
         (1, FutOutcome.failure (Err.eofError "Queue is empty") Option.none)]
    ∧ (QF_signal (QF_complete (QF_add_dependent (QF_add_dependent QF_init 0) 1)) 0
        (FutOutcome.failure (Err.exn "Boom" Val.none) (some 2))).completed
      = [(some (Err.exn "Boom" Val.none, some 2), Val.none)] := by
  have hc := queuefuture_eof_and_item_failure
    (QF_signal (QF_complete (QF_add_dependent QF_init 0)) 0
      (FutOutcome.failure (Err.exn "Boom" Val.none) (some 2)))
  have hd := queuefuture_eof_and_item_failure
    (QF_getq (QF_signal (QF_complete (QF_add_dependent QF_init 0)) 0
      (FutOutcome.failure (Err.exn "Boom" Val.none) (some 2)))).1
  have hb := queuefuture_eof_and_item_failure
    (QF_complete (QF_add_dependent (QF_add_dependent QF_init 0) 1))
  refine ⟨?_, ?_, ?_⟩
  · exact ((hc.2.1 (some (Err.exn "Boom" Val.none, some 2), Val.none) []
      (by decide)).1).trans (by decide)
  · exact ((hd.1 (FutOutcome.success Val.none) (by decide) (by decide) (by decide)
      (by decide)).1).trans (by decide)
  · exact (((hb.2.2 0 (Err.exn "Boom" Val.none) (some 2)).2.1 (by decide)
      (by decide)).1).trans (by decide)

/-! ## AutoBatcher.add_once (src/ndb/autobatcher.py lines 115 to 122) -/

/-- An AutoBatcher together with its dedup cache _cache and the
registered cache-eviction callbacks, keyed by the future they are
registered on. -/
structure ABOnceState : Type where
  ab : ABState
  cache : List ((Val × Val) × Nat)
  evictions : List (Nat × (Val × Val))
  deriving DecidableEq, Repr

/-- Translation of AutoBatcher.add_once (src/ndb/autobatcher.py lines
115 to 122): return the cached future when the (arg, options) key is
present; else add, cache the returned future, and register the
eviction callback on it.

Modelled from the spec: Future.add_immediate_callback, which add_once
calls to register self._cache.__delitem__ on the future, is absent
from src/ndb/tasklets.py (the Future class there defines only
add_callback); per the spec the registered callback evicts the entry
from the dedup cache when the future completes.  The registration is
recorded in evictions and run by complete_future below. -/
def AB_add_once (s : ABOnceState) (arg options : Val) : ABOnceState × Nat :=
  match dict_get s.cache (arg, options) with
  | some fut => (s, fut)
  | Option.none =>
      let r := AB_add s.ab arg options
      ({ ab := r.1,
         cache := dict_set s.cache (arg, options) r.2,
         evictions := s.evictions ++ [(r.2, (arg, options))] }, r.2)

/-- Modelled from the spec: completing a future runs the callbacks
registered on it, in registration order; for add_once each one deletes
its (arg, options) entry from the dedup cache. -/
def complete_future (s : ABOnceState) (fid : Nat) : ABOnceState :=
  { s with
      cache := (s.evictions.filter (fun p => p.1 == fid)).foldl
        (fun c p => dict_del c p.2) s.cache,
      evictions := s.evictions.filter (fun p => p.1 != fid) }

/-- C6: with no cached entry for (arg, options), the first add_once
performs exactly one underlying add; a second add_once before the
future completes returns the very same future and leaves the whole
state unchanged, so any number of such calls share one todo-tasklet
submission; and completing the future runs the registered callback,
leaving the dedup cache without the (arg, options) entry.  The
freshness hypothesis states that no stale callback is registered under
the new future's number, which holds since future numbers are never
reused. -/
theorem add_once_dedup_and_eviction (s : ABOnceState) (arg options : Val)
    (habs : dict_get s.cache (arg, options) = Option.none)
    (hfresh : ∀ p ∈ s.evictions, p.1 ≠ (AB_add s.ab arg options).2) :
    (AB_add_once s arg options).1.ab = (AB_add s.ab arg options).1
    ∧ (AB_add_once s arg options).2 = (AB_add s.ab arg options).2
    ∧ (AB_add_once (AB_add_once s arg options).1 arg options).2
        = (AB_add_once s arg options).2
    ∧ (AB_add_once (AB_add_once s arg options).1 arg options).1
        = (AB_add_once s arg options).1
    ∧ dict_get (complete_future
          (AB_add_once s arg options).1 (AB_add_once s arg options).2).cache
        (arg, options) = Option.none := by
  have h1 : AB_add_once s arg options =
      ({ ab := (AB_add s.ab arg options).1,
         cache := dict_set s.cache (arg, options) (AB_add s.ab arg options).2,
         evictions := s.evictions ++
           [((AB_add s.ab arg options).2, (arg, options))] },
       (AB_add s.ab arg options).2) := by
    simp [AB_add_once, habs]
  have hcached : dict_get (AB_add_once s arg options).1.cache (arg, options)
      = some (AB_add_once s arg options).2 := by
    rw [h1]
    exact dict_get_set_self s.cache (arg, options) (AB_add s.ab arg options).2
  have h2 : AB_add_once (AB_add_once s arg options).1 arg options
      = ((AB_add_once s arg options).1, (AB_add_once s arg options).2) := by
    rw [AB_add_once, hcached]
  refine ⟨by rw [h1], by rw [h1], by rw [h2], by rw [h2], ?_⟩
  have hfilter : ((AB_add_once s arg options).1.evictions.filter
        (fun p => p.1 == (AB_add_once s arg options).2))
      = [((AB_add s.ab arg options).2, (arg, options))] := by
    rw [h1]
    rw [List.filter_append]
    rw [List.filter_eq_nil_iff.mpr (by
      intro p hp
      simpa using hfresh p hp)]
    simp
  rw [complete_future, hfilter]
  rw [h1]
  simp only [List.foldl_cons, List.foldl_nil]
  rw [dict_del_set_absent s.cache (arg, options) _ habs]
  exact habs

/-- Witness for C6 at a fresh batcher with limit ten. -/
theorem add_once_dedup_and_eviction_witness :
    (AB_add_once ⟨AB_init (some 10), [], []⟩ (Val.str "X") Val.none).1.ab
      = (AB_add (AB_init (some 10)) (Val.str "X") Val.none).1
    ∧ (AB_add_once (AB_add_once ⟨AB_init (some 10), [], []⟩
          (Val.str "X") Val.none).1 (Val.str "X") Val.none).2
      = (AB_add_once ⟨AB_init (some 10), [], []⟩ (Val.str "X") Val.none).2
    ∧ dict_get (complete_future
          (AB_add_once ⟨AB_init (some 10), [], []⟩ (Val.str "X") Val.none).1
          (AB_add_once ⟨AB_init (some 10), [], []⟩ (Val.str "X") Val.none).2).cache
        (Val.str "X", Val.none) = Option.none := by
  have h := add_once_dedup_and_eviction ⟨AB_init (some 10), [], []⟩
    (Val.str "X") Val.none rfl (by intro p hp; simp at hp)
  exact ⟨h.1, h.2.2.1, h.2.2.2.2⟩

/-! ## MemcacheClient (src/ndb/memcache_client.py) -/

/-- The class attribute MemcacheClient._memcache_prefix (src/ndb/
memcache_client.py line 24). -/
def memcache_prefix_const : String := "NDB9:"

/-- Python isinstance(v, basestring). -/
def Val.is_str (v : Val) : Bool :=
  match v with
  | Val.str _ => true
  | _ => false

/-- Python isinstance(v, bool). -/
def Val.is_bool (v : Val) : Bool :=
  match v with
  | Val.bool _ => true
  | _ => false

/-- Python isinstance(v, (int, long)); note that a Python bool is an
int. -/
def Val.is_int_py (v : Val) : Bool :=
  match v with
  | Val.int _ => true
  | Val.bool _ => true
  | _ => false

/-- Python unary minus on a number; True negates to -1 and False to
0.  Other values are returned unchanged, but every use below is
guarded by is_int_py. -/
def vneg (v : Val) : Val :=
  match v with
  | Val.int n => Val.int (-n)
  | Val.bool b => Val.int (if b then -1 else 0)
  | other => other

/-- What a MemcacheClient operation hands to its auto-batcher: the
batcher attribute it uses, the arg, the options tuple, and whether it
goes through add_once (the use_cache path) rather than add. -/
structure Submission : Type where
  batcher : String
  arg : Val
  options : Val
  once : Bool
  deriving DecidableEq, Repr

/-- Namespace resolution shared by every operation: if the caller
passes no namespace, namespace_manager.get_namespace() supplies the
ambient one. -/
def resolve_ns (ns_arg : Val) (ambient_ns : Val) : Val :=
  if ns_arg = Val.none then ambient_ns else ns_arg

/-- Translation of MemcacheClient.memcache_get (src/ndb/
memcache_client.py lines 107 to 132): validate, resolve the
namespace, and submit the key itself, unchanged, under the options
tuple (for_cas, namespace, deadline). -/
def memcache_get (key for_cas ns_arg : Val) (use_cache : Bool)
    (deadline ambient_ns : Val) : Except Err Submission :=
  if ¬ key.is_str then
    Except.error (Err.typeError "key must be a string; received" key)
  else if ¬ for_cas.is_bool then
    Except.error (Err.typeError "for_cas must be a bool; received" for_cas)
  else
    Except.ok { batcher := "memcache_get_batcher", arg := key,
                options := vtuple [for_cas, resolve_ns ns_arg ambient_ns, deadline],
                once := use_cache }

/-- Translation of MemcacheClient.memcache_gets (src/ndb/
memcache_client.py lines 136 to 138). -/
def memcache_gets (key ns_arg : Val) (use_cache : Bool)
    (deadline ambient_ns : Val) : Except Err Submission :=
  memcache_get key (Val.bool true) ns_arg use_cache deadline ambient_ns

/-- Translation of MemcacheClient.memcache_set (src/ndb/
memcache_client.py lines 140 to 153). -/
def memcache_set (key value time ns_arg : Val) (use_cache : Bool)
    (deadline ambient_ns : Val) : Except Err Submission :=
  if ¬ key.is_str then
    Except.error (Err.typeError "key must be a string; received" key)
  else if ¬ time.is_int_py then
    Except.error (Err.typeError "time must be a number; received" time)
  else
    Except.ok { batcher := "memcache_set_batcher", arg := vtuple [key, value],
                options := vtuple [Val.str "set", time,
                  resolve_ns ns_arg ambient_ns, deadline],
                once := use_cache }

/-- Translation of MemcacheClient.memcache_add (src/ndb/
memcache_client.py lines 155 to 163). -/
def memcache_add (key value time ns_arg deadline ambient_ns : Val) :
    Except Err Submission :=
  if ¬ key.is_str then
    Except.error (Err.typeError "key must be a string; received" key)
  else if ¬ time.is_int_py then
    Except.error (Err.typeError "time must be a number; received" time)
  else
    Except.ok { batcher := "memcache_set_batcher", arg := vtuple [key, value],
                options := vtuple [Val.str "add", time,
                  resolve_ns ns_arg ambient_ns, deadline],
                once := false }

/-- Translation of MemcacheClient.memcache_replace (src/ndb/
memcache_client.py lines 165 to 173). -/
def memcache_replace (key value time ns_arg deadline ambient_ns : Val) :
    Except Err Submission :=
  if ¬ key.is_str then
    Except.error (Err.typeError "key must be a string; received" key)
  else if ¬ time.is_int_py then
    Except.error (Err.typeError "time must be a number; received" time)
  else
    Except.ok { batcher := "memcache_set_batcher", arg := vtuple [key, value],
                options := vtuple [Val.str "replace", time,
                  resolve_ns ns_arg ambient_ns, deadline],
                once := false }

/-- Translation of MemcacheClient.memcache_cas (src/ndb/
memcache_client.py lines 175 to 183). -/
def memcache_cas (key value time ns_arg deadline ambient_ns : Val) :
    Except Err Submission :=
  if ¬ key.is_str then
    Except.error (Err.typeError "key must be a string; received" key)
  else if ¬ time.is_int_py then
    Except.error (Err.typeError "time must be a number; received" time)
  else
    Except.ok { batcher := "memcache_set_batcher", arg := vtuple [key, value],
                options := vtuple [Val.str "cas", time,
                  resolve_ns ns_arg ambient_ns, deadline],
                once := false }

/-- Translation of MemcacheClient.memcache_delete (src/ndb/
memcache_client.py lines 185 to 192). -/
def memcache_delete (key seconds ns_arg deadline ambient_ns : Val) :
    Except Err Submission :=
  if ¬ key.is_str then
    Except.error (Err.typeError "key must be a string; received" key)
  else if ¬ seconds.is_int_py then
    Except.error (Err.typeError "seconds must be a number; received" seconds)
  else
    Except.ok { batcher := "memcache_del_batcher", arg := key,
                options := vtuple [seconds, resolve_ns ns_arg ambient_ns, deadline],
                once := false }

/-- Translation of MemcacheClient.memcache_incr (src/ndb/
memcache_client.py lines 194 to 206). -/
def memcache_incr (key delta initial_value ns_arg deadline ambient_ns : Val) :
    Except Err Submission :=
  if ¬ key.is_str then
    Except.error (Err.typeError "key must be a string; received" key)
  else if ¬ delta.is_int_py then
    Except.error (Err.typeError "delta must be a number; received" delta)
  else if initial_value ≠ Val.none ∧ ¬ initial_value.is_int_py then
    Except.error (Err.typeError "initial_value must be a number or None; received"
      initial_value)
  else
    Except.ok { batcher := "memcache_off_batcher", arg := vtuple [key, delta],
                options := vtuple [initial_value, resolve_ns ns_arg ambient_ns,
                  deadline],
                once := false }

/-- Translation of MemcacheClient.memcache_decr (src/ndb/
memcache_client.py lines 208 to 220): identical validation, and the
pair (key, -delta) is submitted to the same offset batcher under the
same options tuple. -/
def memcache_decr (key delta initial_value ns_arg deadline ambient_ns : Val) :
    Except Err Submission :=
  if ¬ key.is_str then
    Except.error (Err.typeError "key must be a string; received" key)
  else if ¬ delta.is_int_py then
    Except.error (Err.typeError "delta must be a number; received" delta)
  else if initial_value ≠ Val.none ∧ ¬ initial_value.is_int_py then
    Except.error (Err.typeError "initial_value must be a number or None; received"
      initial_value)
  else
    Except.ok { batcher := "memcache_off_batcher", arg := vtuple [key, vneg delta],
                options := vtuple [initial_value, resolve_ns ns_arg ambient_ns,
                  deadline],
                once := false }

/-- The key set _memcache_get_tasklet builds and hands to
get_multi_async (src/ndb/memcache_client.py lines 39 to 52): keys =
set(); for unused_fut, key in todo: keys.add(key).  Set insertion is
modelled as membership-guarded append. -/
def mc_get_tasklet_keys (todo : List (Nat × Val)) : List Val :=
  todo.foldl (fun ks p => if p.2 ∈ ks then ks else ks ++ [p.2]) []

theorem mc_keys_mem : ∀ (todo : List (Nat × Val)) (acc : List Val) (k : Val),
    (k ∈ todo.foldl (fun ks p => if p.2 ∈ ks then ks else ks ++ [p.2]) acc)
      ↔ (k ∈ acc ∨ k ∈ todo.map Prod.snd) := by
  intro todo
  induction todo with
  | nil => intro acc k; simp
  | cons p rest ih =>
      intro acc k
      rw [List.foldl_cons, ih]
      by_cases hm : p.2 ∈ acc
      · rw [if_pos hm]
        simp only [List.map_cons, List.mem_cons]
        constructor
        · rintro (h | h)
          · exact Or.inl h
          · exact Or.inr (Or.inr h)
        · rintro (h | h | h)
          · exact Or.inl h
          · exact Or.inl (h ▸ hm)
          · exact Or.inr h
      · rw [if_neg hm]
        simp only [List.map_cons, List.mem_cons, List.mem_append,
          List.mem_singleton]
        tauto

/-- C8 counterexample: memcache_get submits the caller key itself and
_memcache_get_tasklet sends exactly that key; the key with the NDB9:
prefix prepended is a different string and is not among the keys sent,
so no operation namespaces its keys with the prefix. -/
theorem memcache_key_not_prefixed_cex :
    memcache_get (Val.str "k") (Val.bool false) Val.none false Val.none (Val.str "")
      = Except.ok { batcher := "memcache_get_batcher", arg := Val.str "k",
                    options := vtuple [Val.bool false, Val.str "", Val.none],
                    once := false }
    ∧ mc_get_tasklet_keys [(0, Val.str "k")] = [Val.str "k"]
    ∧ Val.str "k" ≠ Val.str (memcache_prefix_const ++ "k")
    ∧ ¬ (Val.str (memcache_prefix_const ++ "k")
          ∈ mc_get_tasklet_keys [(0, Val.str "k")]) := by
  exact ⟨rfl, rfl, by decide, by decide⟩

/-- C8 amended: the prefix constant NDB9: is declared on
MemcacheClient but never applied: every operation submits the
caller-supplied key unchanged to its batcher, and the get tasklet
sends to the transport exactly the distinct keys the callers
supplied. -/
theorem memcache_keys_sent_unprefixed :
    (∀ (key fc ns dl amb : Val) (uc : Bool) (sub : Submission),
        memcache_get key fc ns uc dl amb = Except.ok sub → sub.arg = key)
    ∧ (∀ (key ns dl amb : Val) (uc : Bool) (sub : Submission),
        memcache_gets key ns uc dl amb = Except.ok sub → sub.arg = key)
    ∧ (∀ (key value t ns dl amb : Val) (uc : Bool) (sub : Submission),
        memcache_set key value t ns uc dl amb = Except.ok sub →
        sub.arg = vtuple [key, value])
    ∧ (∀ (key value t ns dl amb : Val) (sub : Submission),
        memcache_add key value t ns dl amb = Except.ok sub →
        sub.arg = vtuple [key, value])
    ∧ (∀ (key value t ns dl amb : Val) (sub : Submission),
        memcache_replace key value t ns dl amb = Except.ok sub →
        sub.arg = vtuple [key, value])
    ∧ (∀ (key value t ns dl amb : Val) (sub : Submission),
        memcache_cas key value t ns dl amb = Except.ok sub →
        sub.arg = vtuple [key, value])
    ∧ (∀ (key sec ns dl amb : Val) (sub : Submission),
        memcache_delete key sec ns dl amb = Except.ok sub → sub.arg = key)
    ∧ (∀ (key d iv ns dl amb : Val) (sub : Submission),
        memcache_incr key d iv ns dl amb = Except.ok sub →
        sub.arg = vtuple [key, d])
    ∧ (∀ (key d iv ns dl amb : Val) (sub : Submission),
        memcache_decr key d iv ns dl amb = Except.ok sub →
        sub.arg = vtuple [key, vneg d])
    ∧ (∀ (todo : List (Nat × Val)) (k : Val),
        k ∈ mc_get_tasklet_keys todo ↔ k ∈ todo.map Prod.snd) := by
  refine ⟨?_, ?_, ?_, ?_, ?_, ?_, ?_, ?_, ?_, ?_⟩
  · intro key fc ns dl amb uc sub h
    rw [memcache_get] at h
    split at h
    · exact absurd h (by simp)
    · split at h
      · exact absurd h (by simp)
      · simp only [Except.ok.injEq] at h
        rw [← h]
  · intro key ns dl amb uc sub h
    rw [memcache_gets, memcache_get] at h
    split at h
    · exact absurd h (by simp)
    · split at h
      · exact absurd h (by simp)
      · simp only [Except.ok.injEq] at h
        rw [← h]
  · intro key value t ns dl amb uc sub h
    rw [memcache_set] at h
    split at h
    · exact absurd h (by simp)
    · split at h
      · exact absurd h (by simp)
      · simp only [Except.ok.injEq] at h
        rw [← h]
  · intro key value t ns dl amb sub h
    rw [memcache_add] at h
    split at h
    · exact absurd h (by simp)
    · split at h
      · exact absurd h (by simp)
      · simp only [Except.ok.injEq] at h
        rw [← h]
  · intro key value t ns dl amb sub h
    rw [memcache_replace] at h
    split at h
    · exact absurd h (by simp)
    · split at h
      · exact absurd h (by simp)
      · simp only [Except.ok.injEq] at h
        rw [← h]
  · intro key value t ns dl amb sub h
    rw [memcache_cas] at h
    split at h
    · exact absurd h (by simp)
    · split at h
      · exact absurd h (by simp)
      · simp only [Except.ok.injEq] at h
        rw [← h]
  · intro key sec ns dl amb sub h
    rw [memcache_delete] at h
    split at h
    · exact absurd h (by simp)
    · split at h
      · exact absurd h (by simp)
      · simp only [Except.ok.injEq] at h
        rw [← h]
  · intro key d iv ns dl amb sub h
    rw [memcache_incr] at h
    split at h
    · exact absurd h (by simp)
    · split at h
      · exact absurd h (by simp)
      · split at h
        · exact absurd h (by simp)
        · simp only [Except.ok.injEq] at h
          rw [← h]
  · intro key d iv ns dl amb sub h
    rw [memcache_decr] at h
    split at h
    · exact absurd h (by simp)
    · split at h
      · exact absurd h (by simp)
      · split at h
        · exact absurd h (by simp)
        · simp only [Except.ok.injEq] at h
          rw [← h]
  · intro todo k
    rw [mc_get_tasklet_keys, mc_keys_mem]
    simp

/-- Witness for C8 amended at a concrete get and a concrete incr. -/
theorem memcache_keys_sent_unprefixed_witness :
    ({ batcher := "memcache_get_batcher", arg := Val.str "k",
       options := vtuple [Val.bool false, Val.str "", Val.none],
       once := false } : Submission).arg = Val.str "k"
    ∧ ({ batcher := "memcache_off_batcher", arg := vtuple [Val.str "c", Val.int 2],
         options := vtuple [Val.none, Val.str "", Val.none],
         once := false } : Submission).arg = vtuple [Val.str "c", Val.int 2]
    ∧ (Val.str "k" ∈ mc_get_tasklet_keys [(0, Val.str "k"), (1, Val.str "k")]
        ↔ Val.str "k" ∈ [(0, Val.str "k"), (1, Val.str "k")].map Prod.snd) := by
  refine ⟨?_, ?_, ?_⟩
  · exact memcache_keys_sent_unprefixed.1 (Val.str "k") (Val.bool false) Val.none
      Val.none (Val.str "") false _ rfl
  · exact memcache_keys_sent_unprefixed.2.2.2.2.2.2.2.1 (Val.str "c") (Val.int 2)
      Val.none Val.none Val.none (Val.str "") _ rfl
  · exact memcache_keys_sent_unprefixed.2.2.2.2.2.2.2.2.2
      [(0, Val.str "k"), (1, Val.str "k")] (Val.str "k")

/-- C10: memcache_decr performs exactly the same submission as
memcache_incr with the delta negated: identical argument validation,
identical batcher and options tuple (initial_value, namespace,
deadline), and the (key, minus delta) pair as the arg. -/
theorem memcache_decr_eq_incr_neg (key delta iv ns dl amb : Val)
    (hint : delta.is_int_py = true) :
    memcache_decr key delta iv ns dl amb
      = memcache_incr key (vneg delta) iv ns dl amb := by
  cases delta with
  | int n => simp [memcache_decr, memcache_incr, vneg, Val.is_int_py]
  | bool b => simp [memcache_decr, memcache_incr, vneg, Val.is_int_py]
  | none => exact absurd hint (by simp [Val.is_int_py])
  | str a => exact absurd hint (by simp [Val.is_int_py])
  | nil => exact absurd hint (by simp [Val.is_int_py])
  | cons a b => exact absurd hint (by simp [Val.is_int_py])
  | tuple a => exact absurd hint (by simp [Val.is_int_py])
  | list a => exact absurd hint (by simp [Val.is_int_py])

/-- Witness for C10 at key "c" and delta 4. -/
theorem memcache_decr_eq_incr_neg_witness :
    memcache_decr (Val.str "c") (Val.int 4) Val.none (Val.str "") Val.none
        (Val.str "dflt")
      = memcache_incr (Val.str "c") (Val.int (-4)) Val.none (Val.str "") Val.none
        (Val.str "dflt") := by
  exact memcache_decr_eq_incr_neg (Val.str "c") (Val.int 4) Val.none (Val.str "")
    Val.none (Val.str "dflt") rfl

end NDBSpec
